import Mathlib

/-
Verification of the archive-to-OPTIMADE conversion pipeline
(`optimake/convert.py`): file matching, entry parsing and identifier
derivation, property parsing, reconciliation and assignment, and JSONL
serialization.  Python dictionaries are modelled as insertion-ordered
association lists, Python values as the inductive `Value`, and fallible
code as `Except String`.
-/

set_option autoImplicit false

namespace Optimake

/-- A Python value as it flows through the pipeline: `none` is Python's
`None`; numbers, booleans and strings as themselves (floats as rationals). -/
inductive Value where
  | none
  | bool (b : Bool)
  | int (n : Int)
  | float (q : ℚ)
  | str (s : String)
deriving DecidableEq, Repr

/-- Python truthiness of a value, as used by `or` and `if not x`. -/
def Value.truthy : Value → Bool
  | Value.none => false
  | Value.bool b => b
  | Value.int n => n != 0
  | Value.float q => q != 0
  | Value.str s => s != ""

/-- An OPTIMADE entry record: the `id` field and the attribute dictionary
(insertion-ordered, as a Python dict). -/
structure Entry where
  id : Value
  attributes : List (String × Value)
deriving DecidableEq, Repr

/-- A declared property (from `optimade.yaml` config): name, title,
description, optional unit and the declared scalar type tag. -/
structure PropertyDefinition where
  name : String
  title : String
  description : String
  unit : Option String
  type : String
deriving DecidableEq, Repr

/-- A `ParsedFiles` path specification: optional sub-archive file name and
the optional list of match patterns (field `matches` in the source; `matches`
is a Lean keyword, hence `matchList`). -/
structure ParsedFiles where
  file : Option String
  matchList : Option (List String)
deriving DecidableEq, Repr

/-- Python `d.get(k)` on an insertion-ordered dict modelled as an
association list: first (and only) binding of `k`. -/
def dget {κ : Type} {α : Type} [DecidableEq κ] : List (κ × α) → κ → Option α
  | [], _ => Option.none
  | kv :: rest, k => if kv.1 = k then Option.some kv.2 else dget rest k

/-- Python `d[k] = v`: update the existing binding in place (keeping its
position) or append a new one. -/
def dset {κ : Type} {α : Type} [DecidableEq κ] : List (κ × α) → κ → α → List (κ × α)
  | [], k, v => [(k, v)]
  | kv :: rest, k, v => if kv.1 = k then (k, v) :: rest else kv :: dset rest k v

/-- `defaultdict(list)`-style `d[k] += vs`: extend the list bound at `k`,
creating the binding at the end if absent. -/
def dAppend {κ : Type} {α : Type} [DecidableEq κ] (l : List (κ × List α)) (k : κ) (vs : List α) :
    List (κ × List α) :=
  match dget l k with
  | Option.some old => dset l k (old ++ vs)
  | Option.none => l ++ [(k, vs)]

/-- Split a character list at every occurrence of the separator `c`
(Python `str.split`). -/
def splitOnChar (c : Char) : List Char → List (List Char)
  | [] => [[]]
  | a :: rest =>
    match splitOnChar c rest with
    | [] => if a = c then [[], []] else [[a]]
    | h :: t => if a = c then [] :: h :: t else (a :: h) :: t

/-- Python `id.split("/")[-1].split(".")[0]`: final path segment with
everything from the first dot on stripped. -/
def stem (s : String) : String :=
  String.mk ((splitOnChar '.' ((splitOnChar '/' s.data).getLastD [])).headD [])

/-- `pathlib.Path(p).suffix`: the final extension (with dot) of the final
path segment, empty when the segment has no dot after its first char. -/
def pathSuffix (p : String) : String :=
  let name := (splitOnChar '/' p.data).getLastD []
  let parts := splitOnChar '.' name
  let last := parts.getLastD []
  if 2 ≤ parts.length ∧ last.length + 1 < name.length then String.mk ('.' :: last) else ""

/-- Whether a match pattern contains a glob wildcard (`"*" in m`). -/
def containsStar (m : String) : Bool := m.data.contains '*'

/-- Python `str(key)` on the sub-archive key, which may be `None`. -/
def pyStrKey : Option String → String
  | Option.some s => s
  | Option.none => "None"

/-- `Path(p).relative_to(base)` for paths built as `base ++ "/" ++ rest`. -/
def relativeTo (p : String) (base : String) : String :=
  String.mk (p.data.drop (base.data.length + 1))

/-- Character-list lexicographic order used to model `sorted` on paths. -/
def charListLe : List Char → List Char → Bool
  | [], _ => true
  | _ :: _, [] => false
  | a :: as, b :: bs => if a < b then true else if b < a then false else charListLe as bs

/-- Insert a string into a sorted list of strings. -/
def insertSorted (s : String) : List String → List String
  | [] => [s]
  | t :: rest => if charListLe s.data t.data then s :: t :: rest else t :: insertSorted s rest

/-- `sorted(...)` on the glob expansion. -/
def sortStrings (l : List String) : List String := l.foldr insertSorted []

/-- The namespaced attribute key written by property assignment. -/
def propKey (pfx : String) (name : String) : String := "_" ++ pfx ++ "_" ++ name

/-- Parse a nonempty all-digit character list into a natural number. -/
def digitsToNat? : List Char → Option Nat
  | [] => Option.none
  | cs =>
    if cs.all Char.isDigit then
      Option.some (cs.foldl (fun n c => 10 * n + (c.toNat - 48)) 0)
    else Option.none

/-- Modelled from the spec: the numeric part of Python's `float(...)` string
parsing used by the type-cast table (the table itself lives in
`optimake/parsers.py`, which is not part of the provided sources): an
optional integer part, an optional dot and an optional fractional part. -/
def strToRatCore (cs : List Char) : Option ℚ :=
  match splitOnChar '.' cs with
  | [a] => (digitsToNat? a).map (fun n => (n : ℚ))
  | [a, b] =>
    if a = [] ∧ b = [] then Option.none
    else
      match (if a = [] then Option.some 0 else digitsToNat? a),
            (if b = [] then Option.some 0 else digitsToNat? b) with
      | Option.some i, Option.some f =>
        Option.some ((i : ℚ) + (f : ℚ) / ((10 : ℚ) ^ b.length))
      | _, _ => Option.none
  | _ => Option.none

/-- Python `float(s)` on a string: optional sign followed by a decimal
literal. -/
def strToRat? (s : String) : Option ℚ :=
  match s.data with
  | [] => Option.none
  | '-' :: rest => (strToRatCore rest).map (fun q => -q)
  | '+' :: rest => strToRatCore rest
  | cs => strToRatCore cs

/-- Python `int(s)` on a string: optional sign followed by digits. -/
def strToInt? (s : String) : Option Int :=
  match s.data with
  | [] => Option.none
  | '-' :: rest => (digitsToNat? rest).map (fun n => -(n : Int))
  | '+' :: rest => (digitsToNat? rest).map (fun n => (n : Int))
  | cs => (digitsToNat? cs).map (fun n => (n : Int))

/-- Truncation toward zero, as Python `int(float)`. -/
def ratTrunc (q : ℚ) : Int := if 0 ≤ q then ⌊q⌋ else ⌈q⌉

/-- Modelled from the spec: Python's `int` builtin as the cast for the
`"integer"` type tag. -/
def castInt : Value → Except String Value
  | Value.bool b => Except.ok (Value.int (if b then 1 else 0))
  | Value.int n => Except.ok (Value.int n)
  | Value.float q => Except.ok (Value.int (ratTrunc q))
  | Value.str s =>
    match strToInt? s with
    | Option.some n => Except.ok (Value.int n)
    | Option.none => Except.error ("invalid literal for int with base 10: " ++ s)
  | Value.none => Except.error "int argument must not be None"

/-- Modelled from the spec: Python's `float` builtin as the cast for the
`"float"` type tag. -/
def castFloat : Value → Except String Value
  | Value.bool b => Except.ok (Value.float (if b then 1 else 0))
  | Value.int n => Except.ok (Value.float (n : ℚ))
  | Value.float q => Except.ok (Value.float q)
  | Value.str s =>
    match strToRat? s with
    | Option.some q => Except.ok (Value.float q)
    | Option.none => Except.error ("could not convert string to float: " ++ s)
  | Value.none => Except.error "float argument must not be None"

/-- A plain rendering of a value, for the `"string"` cast. -/
def pyToString : Value → String
  | Value.none => "None"
  | Value.bool b => if b then "True" else "False"
  | Value.int n => toString n
  | Value.float q => toString q
  | Value.str s => s

/-- Modelled from the spec: Python's `str` builtin as the cast for the
`"string"` type tag (total, never fails). -/
def castStr (v : Value) : Except String Value := Except.ok (Value.str (pyToString v))

/-- Modelled from the spec: Python's `bool` builtin as the cast for the
`"boolean"` type tag (total, never fails). -/
def castBool (v : Value) : Except String Value := Except.ok (Value.bool v.truthy)

/-- Modelled from the spec: the `TYPE_MAP` from scalar type tags to cast
functions, imported by `convert.py` from `optimake/parsers.py` (absent from
the provided sources); the spec fixes the tag set to integer, float,
string, boolean. -/
def TYPE_MAP : List (String × (Value → Except String Value)) :=
  [("integer", castInt), ("float", castFloat), ("string", castStr), ("boolean", castBool)]

/-- One parsed property row: property name to raw value. -/
abbrev Row := List (String × Value)

/-- The accumulated `parsed_properties` map: record key to row. -/
abbrev PropMap := List (String × Row)

/-- `parsed_properties.get(k, {}).get(p, None)`: keys of the property map
are strings, so a non-string candidate never matches. -/
def getProp (props : PropMap) (k : Value) (p : String) : Value :=
  match k with
  | Value.str s =>
    match dget props s with
    | Option.some row => (dget row p).getD Value.none
    | Option.none => Value.none
  | _ => Value.none

/-- The value lookup in `_parse_and_assign_properties`:
`props.get(cand, {}).get(p, None) or props.get(id, {}).get(p, None)` —
Python `or` keeps the first operand only when it is truthy. -/
def resolveValue (props : PropMap) (cand : Value) (id : String) (p : String) : Value :=
  let v1 := getProp props cand p
  if v1.truthy then v1 else getProp props (Value.str id) p

/-- The `property_entry_id` computation: the record's `immutable_id`
attribute when present and not `None`, else the filename stem of the
record's own identifier. -/
def reconciledKey (id : String) (attrs : List (String × Value)) : Value :=
  match dget attrs "immutable_id" with
  | Option.some v => if v = Value.none then Value.str (stem id) else v
  | Option.none => Value.str (stem id)

/-- `if value is not None and type in TYPE_MAP: value = TYPE_MAP[type](value)`:
the value to assign, or the propagated cast error. -/
def castForDef (d : PropertyDefinition) (v : Value) : Except String Value :=
  if v = Value.none then Except.ok Value.none
  else
    match dget TYPE_MAP d.type with
    | Option.some c => c v
    | Option.none => Except.ok v

/-- The inner loop of `_parse_and_assign_properties` over
`all_property_fields` for one entry: look the value up, skip undeclared
property names (warning only), cast, and write the namespaced key. -/
def assignFields (defDict : List (String × PropertyDefinition)) (props : PropMap)
    (cand : Value) (id : String) (pfx : String) : List String → Entry → Except String Entry
  | [], e => Except.ok e
  | p :: rest, e =>
    let v := resolveValue props cand id p
    match dget defDict p with
    | Option.none => assignFields defDict props cand id pfx rest e
    | Option.some d =>
      match castForDef d v with
      | Except.error m => Except.error m
      | Except.ok w =>
        assignFields defDict props cand id pfx rest
          { e with attributes := dset e.attributes (propKey pfx p) w }

/-- Property assignment for one entry of the `for id in optimade_entries`
loop. -/
def assignEntry (defDict : List (String × PropertyDefinition)) (pfx : String)
    (fields : List String) (props : PropMap) (id : String) (e : Entry) : Except String Entry :=
  assignFields defDict props (reconciledKey id e.attributes) id pfx fields e

/-- The entry loop of `_parse_and_assign_properties`: mutate every entry in
order, aborting on the first cast failure. -/
def assignProperties (defDict : List (String × PropertyDefinition)) (pfx : String)
    (fields : List String) (props : PropMap) :
    List (String × Entry) → Except String (List (String × Entry))
  | [] => Except.ok []
  | (id, e) :: rest =>
    match assignEntry defDict pfx fields props id e with
    | Except.error m => Except.error m
    | Except.ok e2 =>
      match assignProperties defDict pfx fields props rest with
      | Except.error m => Except.error m
      | Except.ok rest2 => Except.ok ((id, e2) :: rest2)

/-- `{p.name: p for p in property_definitions}` (later names overwrite
earlier ones, first position kept). -/
def mkDefDictAux (acc : List (String × PropertyDefinition)) :
    List PropertyDefinition → List (String × PropertyDefinition)
  | [] => acc
  | p :: rest => mkDefDictAux (dset acc p.name p) rest

/-- The `property_def_dict` of `_parse_and_assign_properties`. -/
def mkDefDict (pdefs : List PropertyDefinition) : List (String × PropertyDefinition) :=
  mkDefDictAux [] pdefs

/-- A parser result: Python code distinguishes a list of documents from a
single document via `isinstance(doc, list)`. -/
inductive PyDoc where
  | single (v : Value)
  | many (l : List Value)
deriving DecidableEq, Repr

/-- Python truthiness of a parser result (`if not doc: raise`). -/
def PyDoc.truthy : PyDoc → Bool
  | PyDoc.single v => v.truthy
  | PyDoc.many l => !l.isEmpty

/-- An entry parser: `(path) -> Document | [Document]`, may raise. -/
abbrev EntryPars := String → Except String PyDoc

/-- A converter: `(Document, properties=[PropertyDefinition]) -> EntryRecordLike`. -/
abbrev Converter := Value → List PropertyDefinition → Except String Entry

/-- A property parser: `(path, [PropertyDefinition]) -> {key: {name: value}}`. -/
abbrev PropPars := String → List PropertyDefinition → Except String PropMap

/-- The pipeline's external collaborators: the filesystem glob, the
existence check and the three plugin registries (`ENTRY_PARSERS`,
`OPTIMADE_CONVERTERS`, `PROPERTY_PARSERS`). -/
structure Env where
  glob : String → List String
  fileExists : String → Bool
  entryPlugins : String → Option (List EntryPars)
  converterPlugins : String → Option (List Converter)
  propertyPlugins : String → List PropPars

/-- The fail-over chain of `_parse_entries`: try each registered parser in
order; a raised exception or a falsy document moves on to the next; an
exhausted chain is the aggregated `RuntimeError`. -/
def tryParsers : List EntryPars → String → Except String PyDoc
  | [], p => Except.error ("None of the provided parsers could parse " ++ p)
  | f :: rest, p =>
    match f p with
    | Except.ok doc => if doc.truthy then Except.ok doc else tryParsers rest p
    | Except.error _ => tryParsers rest p

/-- The documents contributed by one parsed file. -/
def docEntries : PyDoc → List Value
  | PyDoc.single v => [v]
  | PyDoc.many l => l

/-- The identifiers contributed by one parsed file: `<root>/<index>` per
position for a document list, `<root>` alone for a single document. -/
def docIds (root : String) : PyDoc → List String
  | PyDoc.single _ => [root]
  | PyDoc.many l => (List.range l.length).map (fun i => root ++ "/" ++ toString i)

/-- The `id_root` of `_parse_entries`: sub-archive name joined with the
path relative to the archive when that sub-archive matched more than one
file, else the sub-archive name alone. -/
def idRoot (f : Option String) (archive : String) (all : List String) (p : String) : String :=
  if 1 < all.length then pyStrKey f ++ "/" ++ relativeTo p archive else pyStrKey f

/-- Parse one matched file and derive its identifiers. -/
def parseFile (parsers : List EntryPars) (root : String) (p : String) :
    Except String (List Value × List String) :=
  match tryParsers parsers p with
  | Except.error m => Except.error m
  | Except.ok doc => Except.ok (docEntries doc, docIds root doc)

/-- The inner loop of `_parse_entries` over the files matched for one
sub-archive key (`all` is the full matched list, fixed while iterating). -/
def parsePathList (parsers : List EntryPars) (archive : String) (f : Option String)
    (all : List String) : List String → Except String (List Value × List String)
  | [] => Except.ok ([], [])
  | p :: rest =>
    match parseFile parsers (idRoot f archive all p) p with
    | Except.error m => Except.error m
    | Except.ok (ds, ids) =>
      match parsePathList parsers archive f all rest with
      | Except.error m => Except.error m
      | Except.ok (ds2, ids2) => Except.ok (ds ++ ds2, ids ++ ids2)

/-- `_parse_entries`: loop over the matches-by-file map in insertion order
and accumulate parallel lists of documents and identifiers. -/
def parse_entries (parsers : List EntryPars) (archive : String) :
    List (Option String × List String) → Except String (List Value × List String)
  | [] => Except.ok ([], [])
  | (f, ps) :: rest =>
    match parsePathList parsers archive f ps ps with
    | Except.error m => Except.error m
    | Except.ok (ds, ids) =>
      match parse_entries parsers archive rest with
      | Except.error m => Except.error m
      | Except.ok (ds2, ids2) => Except.ok (ds ++ ds2, ids ++ ids2)

/-- The pattern loop of `_get_matches` for one `ParsedFiles` entry: expand
wildcards via sorted glob (zero matches is a hard failure), otherwise take
the literal path under the archive root. -/
def get_matches_inner (env : Env) (archive : String) (f : Option String) :
    List (Option String × List String) → List String →
    Except String (List (Option String × List String))
  | acc, [] => Except.ok acc
  | acc, m :: rest =>
    if containsStar m then
      let wildcard := (sortStrings (env.glob m)).map (fun r => archive ++ "/" ++ r)
      if wildcard.isEmpty then
        Except.error ("Could not find any files matching wildcard " ++ m)
      else get_matches_inner env archive f (dAppend acc f wildcard) rest
    else get_matches_inner env archive f (dAppend acc f [archive ++ "/" ++ m]) rest

/-- `_get_matches`: fold the path specifications into the matches-by-file
map; a specification with no patterns resolves to its own file name. -/
def get_matches_paths (env : Env) (archive : String) :
    List ParsedFiles → List (Option String × List String) →
    Except String (List (Option String × List String))
  | [], acc => Except.ok acc
  | pf :: rest, acc =>
    match get_matches_inner env archive pf.file acc (pf.matchList.getD []) with
    | Except.error m => Except.error m
    | Except.ok acc2 =>
      get_matches_paths env archive rest
        (if (pf.matchList.getD []).isEmpty then
          dAppend acc2 pf.file [archive ++ "/" ++ pyStrKey pf.file]
        else acc2)

/-- `_get_matches` from an empty accumulator. -/
def get_matches (env : Env) (archive : String) (paths : List ParsedFiles) :
    Except String (List (Option String × List String)) :=
  get_matches_paths env archive paths []

/-- `_check_missing`: every resolved path must exist; missing ones are
reported in one aggregated failure. -/
def check_missing (env : Env) (mbf : List (Option String × List String)) :
    Except String Unit :=
  if ((mbf.map Prod.snd).flatten.filter (fun p => !env.fileExists p)).isEmpty then Except.ok ()
  else Except.error "Could not find the following files"

/-- The fail-over chain over `OPTIMADE_CONVERTERS[entry_type]`. -/
def tryConverters : List Converter → Value → List PropertyDefinition → Except String Entry
  | [], _, _ => Except.error "Could not convert entry with any of the provided converters"
  | c :: rest, doc, pdefs =>
    match c doc pdefs with
    | Except.ok e => Except.ok e
    | Except.error _ => tryConverters rest doc pdefs

/-- The entry-construction loop of `construct_entries`: convert each
document, substitute the derived identifier when the converter's own id is
falsy, and fail on a derived identifier already present in the map. -/
def buildEntries (convs : List Converter) (pdefs : List PropertyDefinition) :
    List (String × Value) → List (String × Entry) → Except String (List (String × Entry))
  | [], acc => Except.ok acc
  | (eid, doc) :: rest, acc =>
    match tryConverters convs doc pdefs with
    | Except.error m => Except.error m
    | Except.ok e =>
      let e2 := if e.id.truthy then e else { e with id := Value.str eid }
      if (dget acc eid).isSome then Except.error ("Duplicate entry ID found: " ++ eid)
      else buildEntries convs pdefs rest (acc ++ [(eid, e2)])

/-- The entry-construction loop from an empty output map. -/
def buildEntriesMain (convs : List Converter) (pdefs : List PropertyDefinition)
    (pairs : List (String × Value)) : Except String (List (String × Entry)) :=
  buildEntries convs pdefs pairs []

/-- The fail-over chain over `PROPERTY_PARSERS[file_ext]`. -/
def tryPropParsers : List PropPars → String → List PropertyDefinition → Except String PropMap
  | [], p, _ => Except.error ("Could not parse properties file " ++ p)
  | f :: rest, p, pdefs =>
    match f p pdefs with
    | Except.ok rows => Except.ok rows
    | Except.error _ => tryPropParsers rest p pdefs

/-- `parsed_properties[id].update(properties[id])` over all returned rows
(`defaultdict(dict)` semantics). -/
def addRows (props : PropMap) (rows : PropMap) : PropMap :=
  rows.foldl
    (fun ps kv =>
      match dget ps kv.1 with
      | Option.some old => dset ps kv.1 (kv.2.foldl (fun o kv2 => dset o kv2.1 kv2.2) old)
      | Option.none => ps ++ [(kv.1, kv.2)])
    props

/-- `all_property_fields |= set(properties[id].keys())`, kept as an
insertion-ordered duplicate-free list. -/
def addFields (fields : List String) (rows : PropMap) : List String :=
  rows.foldl
    (fun fs kv => kv.2.foldl (fun fs2 kv2 => if kv2.1 ∈ fs2 then fs2 else fs2 ++ [kv2.1]) fs)
    fields

/-- The file loop of `_parse_and_assign_properties` for one sub-archive
key: pick property parsers by file extension and accumulate rows and the
set of seen property names. -/
def parsePropPaths (env : Env) (pdefs : List PropertyDefinition) :
    List String → PropMap × List String → Except String (PropMap × List String)
  | [], acc => Except.ok acc
  | p :: rest, (props, fields) =>
    match tryPropParsers (env.propertyPlugins (pathSuffix p)) p pdefs with
    | Except.error m => Except.error m
    | Except.ok rows => parsePropPaths env pdefs rest (addRows props rows, addFields fields rows)

/-- The outer file loop of `_parse_and_assign_properties` over the
matches-by-file map. -/
def parsePropFiles (env : Env) (pdefs : List PropertyDefinition) :
    List (Option String × List String) → PropMap × List String →
    Except String (PropMap × List String)
  | [], acc => Except.ok acc
  | kv :: rest, acc =>
    match parsePropPaths env pdefs kv.2 acc with
    | Except.error m => Except.error m
    | Except.ok acc2 => parsePropFiles env pdefs rest acc2

/-- `_parse_and_assign_properties`: a no-op on an empty property-matches
map; otherwise parse every property file (empty overall result is fatal;
the declared-vs-found name-set comparison is only a warning) and run the
assignment loop over all entries. -/
def parse_and_assign_properties (env : Env) (entries : List (String × Entry))
    (pm : List (Option String × List String)) (pdefs : List PropertyDefinition)
    (pfx : String) : Except String (List (String × Entry)) :=
  if pm.isEmpty then Except.ok entries
  else
    match parsePropFiles env pdefs pm ([], []) with
    | Except.error m => Except.error m
    | Except.ok (props, fields) =>
      if props.isEmpty then
        Except.error "Could not parse properties files with any of the provided parsers"
      else assignProperties (mkDefDict pdefs) pfx fields props entries

/-- One entry-type block of the `optimade.yaml` configuration. -/
structure EntryConfig where
  entry_type : String
  entry_paths : List ParsedFiles
  property_paths : List ParsedFiles
  property_definitions : List PropertyDefinition

/-- `construct_entries`: registry checks, entry matching, parsing with
identifier derivation, property matching, conversion with duplicate
detection, then property assignment. -/
def construct_entries (env : Env) (archive : String) (cfg : EntryConfig) (pfx : String) :
    Except String (List (String × Entry)) :=
  match env.entryPlugins cfg.entry_type with
  | Option.none => Except.error ("Parsing type " ++ cfg.entry_type ++ " is not supported.")
  | Option.some parsers =>
    match env.converterPlugins cfg.entry_type with
    | Option.none => Except.error ("Converting type " ++ cfg.entry_type ++ " is not supported.")
    | Option.some convs =>
      match get_matches env archive cfg.entry_paths with
      | Except.error m => Except.error m
      | Except.ok em =>
        match check_missing env em with
        | Except.error m => Except.error m
        | Except.ok _ =>
          match parse_entries parsers archive em with
          | Except.error m => Except.error m
          | Except.ok (parsed, ids) =>
            match get_matches env archive cfg.property_paths with
            | Except.error m => Except.error m
            | Except.ok pm =>
              match check_missing env pm with
              | Except.error m => Except.error m
              | Except.ok _ =>
                match buildEntriesMain convs cfg.property_definitions (ids.zip parsed) with
                | Except.error m => Except.error m
                | Except.ok entries =>
                  parse_and_assign_properties env entries pm cfg.property_definitions pfx

/-- One line of the output JSONL file. -/
inductive JsonlLine where
  | header (api_version : String)
  | info (entry_type : String) (pfx : String) (pdefs : List PropertyDefinition)
  | record (e : Entry)
deriving DecidableEq, Repr

/-- Strip attribute keys with the internal `_ase` bookkeeping marker
before serialization. -/
def stripInternal (e : Entry) : Entry :=
  { e with attributes := e.attributes.filter (fun kv => !(List.isPrefixOf "_ase".data kv.1.data)) }

/-- `write_optimade_jsonl` as the sequence of lines it writes: refuse an
existing output, else one header line, one info line per entry type of the
property-definitions map, then the records of each entry type that has
any, in insertion order. -/
def write_optimade_jsonl (outputExists : Bool)
    (optimade_entries : List (String × List Entry))
    (property_definitions : List (String × List PropertyDefinition))
    (pfx : String) : Except String (List JsonlLine) :=
  if outputExists then Except.error "Not overwriting existing file"
  else
    Except.ok
      (JsonlLine.header "1.1.0" ::
        (property_definitions.map (fun td => JsonlLine.info td.1 pfx td.2) ++
          optimade_entries.flatMap
            (fun te =>
              if te.2.isEmpty then []
              else te.2.map (fun e => JsonlLine.record (stripInternal e)))))

/-- The serializer's effect on the target file: the pre-existing content
(if any) paired with the call's result; the guard fires before the file is
opened, so existing content is never touched. -/
def write_optimade_jsonl_fs (existing : Option (List JsonlLine))
    (optimade_entries : List (String × List Entry))
    (property_definitions : List (String × List PropertyDefinition))
    (pfx : String) : Except String (List JsonlLine) × Option (List JsonlLine) :=
  match write_optimade_jsonl existing.isSome optimade_entries property_definitions pfx with
  | Except.error m => (Except.error m, existing)
  | Except.ok lines => (Except.ok lines, Option.some lines)

/-! Dictionary lemmas. -/

theorem dget_dset_self {κ α : Type} [DecidableEq κ] (l : List (κ × α)) (k : κ) (v : α) :
    dget (dset l k v) k = Option.some v := by
  induction l with
  | nil => simp [dget, dset]
  | cons kv rest ih =>
    by_cases h : kv.1 = k
    · simp [dset, h, dget]
    · simp [dset, h, dget, ih]

theorem dget_dset_ne {κ α : Type} [DecidableEq κ] (l : List (κ × α)) (k k2 : κ) (v : α)
    (h : k ≠ k2) : dget (dset l k v) k2 = dget l k2 := by
  induction l with
  | nil => simp [dget, dset, h]
  | cons kv rest ih =>
    by_cases hk : kv.1 = k
    · have hk2 : ¬kv.1 = k2 := by rw [hk]; exact h
      simp [dset, hk, dget, h, hk2]
    · simp [dset, hk, dget, ih]

theorem dget_dset_cases {κ α : Type} [DecidableEq κ] (l : List (κ × α)) (k k2 : κ) (v w : α)
    (h : dget (dset l k v) k2 = Option.some w) :
    (k2 = k ∧ w = v) ∨ dget l k2 = Option.some w := by
  by_cases hk : k = k2
  · subst hk
    rw [dget_dset_self] at h
    exact Or.inl ⟨rfl, (Option.some.inj h).symm⟩
  · rw [dget_dset_ne l k k2 v hk] at h
    exact Or.inr h

theorem dget_eq_none_iff {κ α : Type} [DecidableEq κ] (l : List (κ × α)) (k : κ) :
    dget l k = Option.none ↔ k ∉ l.map Prod.fst := by
  induction l with
  | nil => simp [dget]
  | cons kv rest ih =>
    by_cases h : kv.1 = k
    · simp [dget, h]
    · simp [dget, h, ih, Ne.symm h]

theorem dget_append_right {κ α : Type} [DecidableEq κ] (l : List (κ × α)) (k : κ) (v : α)
    (h : dget l k = Option.none) : dget (l ++ [(k, v)]) k = Option.some v := by
  induction l with
  | nil => simp [dget]
  | cons kv rest ih =>
    by_cases hk : kv.1 = k
    · simp [dget, hk] at h
    · simp only [dget, hk] at h
      simp [dget, hk, ih h]

/-! Lemmas about the per-entry assignment loop. -/

theorem assignFields_preserve (dd : List (String × PropertyDefinition)) (props : PropMap)
    (cand : Value) (id : String) (pfx : String) (k : String) :
    ∀ (fields : List String) (e e2 : Entry),
      (∀ q ∈ fields, propKey pfx q ≠ k) →
      assignFields dd props cand id pfx fields e = Except.ok e2 →
      dget e2.attributes k = dget e.attributes k := by
  intro fields
  induction fields with
  | nil =>
    intro e e2 _ h
    simp only [assignFields] at h
    cases h
    rfl
  | cons p rest ih =>
    intro e e2 hq h
    cases hdd : dget dd p with
    | none =>
      simp only [assignFields, hdd] at h
      exact ih e e2 (fun q hqr => hq q (List.mem_cons_of_mem _ hqr)) h
    | some d =>
      cases hc : castForDef d (resolveValue props cand id p) with
      | error m => simp [assignFields, hdd, hc] at h
      | ok w =>
        simp only [assignFields, hdd, hc] at h
        have h2 := ih _ e2 (fun q hqr => hq q (List.mem_cons_of_mem _ hqr)) h
        rw [h2]
        exact dget_dset_ne e.attributes (propKey pfx p) k w (hq p (List.mem_cons_self p rest))

theorem assignFields_write (dd : List (String × PropertyDefinition)) (props : PropMap)
    (cand : Value) (id : String) (pfx : String) (p : String) (d : PropertyDefinition) (w : Value) :
    ∀ (fields : List String) (e e2 : Entry),
      (fields.map (propKey pfx)).Nodup →
      p ∈ fields →
      dget dd p = Option.some d →
      castForDef d (resolveValue props cand id p) = Except.ok w →
      assignFields dd props cand id pfx fields e = Except.ok e2 →
      dget e2.attributes (propKey pfx p) = Option.some w := by
  intro fields
  induction fields with
  | nil => intro e e2 _ hp; cases hp
  | cons q rest ih =>
    intro e e2 hnd hp hd hc h
    simp only [List.map_cons, List.nodup_cons] at hnd
    rcases List.mem_cons.mp hp with rfl | hp2
    · simp only [assignFields, hd, hc] at h
      have hpres := assignFields_preserve dd props cand id pfx (propKey pfx p) rest _ e2
        (fun r hr hcontra => hnd.1 (hcontra ▸ List.mem_map_of_mem (propKey pfx) hr)) h
      rw [hpres, dget_dset_self]
    · cases hdq : dget dd q with
      | none =>
        simp only [assignFields, hdq] at h
        exact ih _ e2 hnd.2 hp2 hd hc h
      | some dq =>
        cases hcq : castForDef dq (resolveValue props cand id q) with
        | error m => simp [assignFields, hdq, hcq] at h
        | ok wq =>
          simp only [assignFields, hdq, hcq] at h
          exact ih _ e2 hnd.2 hp2 hd hc h

theorem assignFields_error (dd : List (String × PropertyDefinition)) (props : PropMap)
    (cand : Value) (id : String) (pfx : String) (p : String) (d : PropertyDefinition)
    (m : String) :
    ∀ (fields : List String) (e : Entry),
      p ∈ fields →
      dget dd p = Option.some d →
      castForDef d (resolveValue props cand id p) = Except.error m →
      ∃ m2, assignFields dd props cand id pfx fields e = Except.error m2 := by
  intro fields
  induction fields with
  | nil => intro e hp; cases hp
  | cons q rest ih =>
    intro e hp hd hc
    rcases List.mem_cons.mp hp with rfl | hp2
    · exact ⟨m, by simp only [assignFields, hd, hc]⟩
    · cases hdq : dget dd q with
      | none =>
        simp only [assignFields, hdq]
        exact ih e hp2 hd hc
      | some dq =>
        cases hcq : castForDef dq (resolveValue props cand id q) with
        | error mq => exact ⟨mq, by simp only [assignFields, hdq, hcq]⟩
        | ok wq =>
          simp only [assignFields, hdq, hcq]
          exact ih _ hp2 hd hc

theorem assignFields_new_keys (dd : List (String × PropertyDefinition)) (props : PropMap)
    (cand : Value) (id : String) (pfx : String) :
    ∀ (fields : List String) (e e2 : Entry),
      assignFields dd props cand id pfx fields e = Except.ok e2 →
      ∀ k, (dget e2.attributes k).isSome →
        (dget e.attributes k).isSome ∨
          ∃ p d, dget dd p = Option.some d ∧ k = propKey pfx p := by
  intro fields
  induction fields with
  | nil =>
    intro e e2 h k hk
    simp only [assignFields] at h
    cases h
    exact Or.inl hk
  | cons p rest ih =>
    intro e e2 h k hk
    cases hdd : dget dd p with
    | none =>
      simp only [assignFields, hdd] at h
      exact ih e e2 h k hk
    | some d =>
      cases hc : castForDef d (resolveValue props cand id p) with
      | error m => simp [assignFields, hdd, hc] at h
      | ok w =>
        simp only [assignFields, hdd, hc] at h
        rcases ih _ e2 h k hk with hold | hnew
        · by_cases hkp : k = propKey pfx p
          · exact Or.inr ⟨p, d, hdd, hkp⟩
          · rw [dget_dset_ne e.attributes (propKey pfx p) k w (fun hx => hkp hx.symm)]
              at hold
            exact Or.inl hold
        · exact Or.inr hnew

theorem assignFields_total_of_none (dd : List (String × PropertyDefinition)) (props : PropMap)
    (cand : Value) (id : String) (pfx : String)
    (hval : ∀ p, resolveValue props cand id p = Value.none) :
    ∀ (fields : List String) (e : Entry),
      ∃ e2, assignFields dd props cand id pfx fields e = Except.ok e2 := by
  intro fields
  induction fields with
  | nil => intro e; exact ⟨e, rfl⟩
  | cons p rest ih =>
    intro e
    cases hdd : dget dd p with
    | none =>
      obtain ⟨e2, he2⟩ := ih e
      exact ⟨e2, by simp only [assignFields, hdd]; exact he2⟩
    | some d =>
      have hcast : castForDef d (resolveValue props cand id p) = Except.ok Value.none := by
        rw [hval p]; simp [castForDef]
      obtain ⟨e2, he2⟩ :=
        ih { e with attributes := dset e.attributes (propKey pfx p) Value.none }
      exact ⟨e2, by simp only [assignFields, hdd, hcast]; exact he2⟩

/-! Lemmas about the entry-construction loop. -/

theorem buildEntries_keys (convs : List Converter) (pdefs : List PropertyDefinition) :
    ∀ (pairs : List (String × Value)) (acc out : List (String × Entry)),
      buildEntries convs pdefs pairs acc = Except.ok out →
      out.map Prod.fst = acc.map Prod.fst ++ pairs.map Prod.fst := by
  intro pairs
  induction pairs with
  | nil =>
    intro acc out h
    simp only [buildEntries] at h
    cases h
    simp
  | cons pr rest ih =>
    intro acc out h
    obtain ⟨eid, doc⟩ := pr
    cases hc : tryConverters convs doc pdefs with
    | error m => simp [buildEntries, hc] at h
    | ok e =>
      cases hdup : (dget acc eid).isSome with
      | true => simp [buildEntries, hc, hdup] at h
      | false =>
        simp only [buildEntries, hc, hdup, Bool.false_eq_true, if_false] at h
        have h2 := ih _ out h
        rw [h2]
        simp [List.map_append]

theorem buildEntries_nodup (convs : List Converter) (pdefs : List PropertyDefinition) :
    ∀ (pairs : List (String × Value)) (acc out : List (String × Entry)),
      (acc.map Prod.fst).Nodup →
      buildEntries convs pdefs pairs acc = Except.ok out →
      (out.map Prod.fst).Nodup := by
  intro pairs
  induction pairs with
  | nil =>
    intro acc out hacc h
    simp only [buildEntries] at h
    cases h
    exact hacc
  | cons pr rest ih =>
    intro acc out hacc h
    obtain ⟨eid, doc⟩ := pr
    cases hc : tryConverters convs doc pdefs with
    | error m => simp [buildEntries, hc] at h
    | ok e =>
      cases hdup : (dget acc eid).isSome with
      | true => simp [buildEntries, hc, hdup] at h
      | false =>
        simp only [buildEntries, hc, hdup, Bool.false_eq_true, if_false] at h
        have hnone : dget acc eid = Option.none := by
          cases hx : dget acc eid with
          | none => rfl
          | some v => rw [hx] at hdup; cases hdup
        have hnotmem : eid ∉ acc.map Prod.fst := (dget_eq_none_iff acc eid).mp hnone
        refine ih _ out ?_ h
        rw [List.map_append, List.nodup_append]
        refine ⟨hacc, List.nodup_singleton eid, ?_⟩
        intro x hx hx2
        simp only [List.map_cons, List.map_nil, List.mem_singleton] at hx2
        exact hnotmem (hx2 ▸ hx)

/-- Claim C2 (counterexample): a converter that supplies its own id `"X"`
for every document makes `construct_entries`' loop accept two records with
the same identifier `"X"` — no duplicate-identifier error is raised,
because the check only inspects the derived map keys `"a"` and `"b"`. -/
theorem claim2_converter_id_counterexample :
    buildEntriesMain [fun _ _ => Except.ok (Entry.mk (Value.str "X") [])] []
      [("a", Value.int 1), ("b", Value.int 2)]
    = Except.ok [("a", Entry.mk (Value.str "X") []), ("b", Entry.mk (Value.str "X") [])] := by
  rfl

/-- Claim C2 (amended): within one `construct_entries` call the *derived*
entry identifiers (the keys of the output map) are never duplicated: a
successful run returns exactly the derived keys, duplicate-free, and a
duplicate derived key makes the run fail; the converter-supplied `id`
field itself is not checked for duplicates. -/
theorem claim2_duplicate_ids_amended (convs : List Converter)
    (pdefs : List PropertyDefinition) (pairs : List (String × Value)) :
    (∀ out, buildEntriesMain convs pdefs pairs = Except.ok out →
      out.map Prod.fst = pairs.map Prod.fst ∧ (out.map Prod.fst).Nodup) ∧
    (¬(pairs.map Prod.fst).Nodup →
      ∃ m, buildEntriesMain convs pdefs pairs = Except.error m) := by
  constructor
  · intro out h
    refine ⟨?_, buildEntries_nodup convs pdefs pairs [] out (by simp) h⟩
    have := buildEntries_keys convs pdefs pairs [] out h
    simpa using this
  · intro hdup
    cases h : buildEntriesMain convs pdefs pairs with
    | error m => exact ⟨m, rfl⟩
    | ok out =>
      have hkeys := buildEntries_keys convs pdefs pairs [] out h
      have hnd := buildEntries_nodup convs pdefs pairs [] out (by simp) h
      rw [hkeys] at hnd
      simp only [List.map_nil, List.nil_append] at hnd
      exact absurd hnd hdup

/-- Claim C2 (witness for the amended theorem): two documents with the same
derived identifier `"a"` make the construction loop fail. -/
theorem claim2_duplicate_ids_witness :
    ∃ m, buildEntriesMain [fun _ _ => Except.ok (Entry.mk Value.none [])] []
      [("a", Value.int 1), ("a", Value.int 2)] = Except.error m :=
  (claim2_duplicate_ids_amended [fun _ _ => Except.ok (Entry.mk Value.none [])] []
    [("a", Value.int 1), ("a", Value.int 2)]).2 (by decide)

/-- Claim C1 (code evaluation at the failing input): one declared property
`"foo"` of type float, and property data `{"x": {"bar": 1}}` that carries
no field named `"foo"`. `_parse_and_assign_properties` loops over the
fields *found in the data* (`all_property_fields`), so the declared
property `"foo"` is never written to the entry at all — the returned
record has an empty attribute map instead of `_mcloudarchive_foo: None`,
contradicting the claimed rectangularity over declared definitions. -/
theorem claim1_rectangularity_code_eval :
    parse_and_assign_properties
      (Env.mk (fun _ => []) (fun _ => true) (fun _ => Option.none) (fun _ => Option.none)
        (fun _ => [fun _ _ => Except.ok [("x", [("bar", Value.int 1)])]]))
      [("structures/thing.cif", Entry.mk (Value.str "structures/thing.cif") [])]
      [(Option.some "data.csv", ["arch/data.csv"])]
      [PropertyDefinition.mk "foo" "" "" Option.none "float"] "mcloudarchive"
    = Except.ok [("structures/thing.cif", Entry.mk (Value.str "structures/thing.cif") [])]
    ∧ dget (Entry.mk (Value.str "structures/thing.cif")
        ([] : List (String × Value))).attributes (propKey "mcloudarchive" "foo")
      = Option.none := by
  exact ⟨rfl, rfl⟩

/-- Claim C3 (counterexample): entry `"structures/foo.cif"` (no
`immutable_id`), declared property `"weight"`, and parsed property data
`{"unrelated": {"density": 2}}` in which neither the stem `"foo"` nor the
full identifier occurs. The claim says every *declared* property is then
assigned `None`; in fact the loop runs over the *found* fields only, so
`_mcloudarchive_weight` is never written (the attribute map stays empty
rather than mapping the key to `None`). -/
theorem claim3_counterexample :
    parse_and_assign_properties
      (Env.mk (fun _ => []) (fun _ => true) (fun _ => Option.none) (fun _ => Option.none)
        (fun _ => [fun _ _ => Except.ok [("unrelated", [("density", Value.int 2)])]]))
      [("structures/foo.cif", Entry.mk (Value.str "structures/foo.cif") [])]
      [(Option.some "props.csv", ["arch/props.csv"])]
      [PropertyDefinition.mk "weight" "" "" Option.none "float"] "mcloudarchive"
    = Except.ok [("structures/foo.cif", Entry.mk (Value.str "structures/foo.cif") [])]
    ∧ dget (Entry.mk (Value.str "structures/foo.cif")
        ([] : List (String × Value))).attributes (propKey "mcloudarchive" "weight")
      = Option.none := by
  exact ⟨rfl, rfl⟩

/-- Claim C3 (amended): identifier reconciliation uses the record's
`immutable_id` attribute when present (and not `None`), else the final
path segment of the record's identifier with its extension stripped
(e.g. `"structures/foo.cif"` reconciles as `"foo"`); when neither the
candidate key nor the full identifier is a key of the property map, every
property name *found in the property data and declared* is assigned `None`
for that record and the batch does not fail. -/
theorem claim3_reconciliation_amended (defDict : List (String × PropertyDefinition))
    (pfx : String) (fields : List String) (props : PropMap) (id : String) (e : Entry) :
    (∀ s, dget e.attributes "immutable_id" = Option.some (Value.str s) →
      reconciledKey id e.attributes = Value.str s) ∧
    (dget e.attributes "immutable_id" = Option.none →
      reconciledKey id e.attributes = Value.str (stem id)) ∧
    stem "structures/foo.cif" = "foo" ∧
    (∀ c, reconciledKey id e.attributes = Value.str c →
      dget props c = Option.none → dget props id = Option.none →
      (fields.map (propKey pfx)).Nodup →
      ∃ e2, assignEntry defDict pfx fields props id e = Except.ok e2 ∧
        ∀ p ∈ fields, ∀ d, dget defDict p = Option.some d →
          dget e2.attributes (propKey pfx p) = Option.some Value.none) := by
  refine ⟨?_, ?_, rfl, ?_⟩
  · intro s hs
    simp [reconciledKey, hs]
  · intro hs
    simp [reconciledKey, hs]
  · intro c hrk hc hid hnd
    have hval : ∀ p, resolveValue props (Value.str c) id p = Value.none := by
      intro p
      simp [resolveValue, getProp, hc, hid, Value.truthy]
    obtain ⟨e2, he2⟩ :=
      assignFields_total_of_none defDict props (Value.str c) id pfx hval fields e
    refine ⟨e2, ?_, ?_⟩
    · simp only [assignEntry, hrk]
      exact he2
    · intro p hp d hd
      have hcast : castForDef d (resolveValue props (Value.str c) id p)
          = Except.ok Value.none := by
        rw [hval p]; simp [castForDef]
      exact assignFields_write defDict props (Value.str c) id pfx p d Value.none
        fields e e2 hnd hp hd hcast he2

/-- Claim C3 (witness for the amended theorem): concrete instantiation with
an `immutable_id`-free record `"structures/foo.cif"`, one found-and-declared
field `"density"` and a property map keyed only by `"unrelated"`. -/
theorem claim3_reconciliation_witness :
    ∃ e2, assignEntry [("density", PropertyDefinition.mk "density" "" "" Option.none "float")]
      "mcloudarchive" ["density"] [("unrelated", [("density", Value.int 2)])]
      "structures/foo.cif" (Entry.mk (Value.str "structures/foo.cif") [])
      = Except.ok e2 ∧
      dget e2.attributes (propKey "mcloudarchive" "density") = Option.some Value.none := by
  obtain ⟨e2, hok, hall⟩ :=
    (claim3_reconciliation_amended
      [("density", PropertyDefinition.mk "density" "" "" Option.none "float")]
      "mcloudarchive" ["density"] [("unrelated", [("density", Value.int 2)])]
      "structures/foo.cif" (Entry.mk (Value.str "structures/foo.cif") [])).2.2.2
      "foo" (by rfl) (by rfl) (by rfl) (by decide)
  exact ⟨e2, hok, hall "density" (by simp)
    (PropertyDefinition.mk "density" "" "" Option.none "float") (by rfl)⟩

/-- Claim C7: calling the serializer when the target file already exists
returns the output-exists error and leaves the existing content untouched
(the file is only opened after the existence check passes). -/
theorem claim7_output_exists_guard (old : List JsonlLine)
    (optimade_entries : List (String × List Entry))
    (property_definitions : List (String × List PropertyDefinition)) (pfx : String) :
    write_optimade_jsonl_fs (Option.some old) optimade_entries property_definitions pfx
    = (Except.error "Not overwriting existing file", Option.some old) := by
  rfl

/-- Claim C4: a present (non-`None`) value whose definition declares a type
known to `TYPE_MAP` is cast before assignment — the cast's result is what
lands in the attribute map, a failing cast aborts the assignment run, the
`"float"` tag maps to the float cast, and casting the raw string `"3.5"`
yields the number 3.5. -/
theorem claim4_type_casting (dd : List (String × PropertyDefinition)) (props : PropMap)
    (cand : Value) (id : String) (pfx : String) (p : String) (d : PropertyDefinition)
    (c : Value → Except String Value) (v : Value) (fields : List String) (e : Entry)
    (hnd : (fields.map (propKey pfx)).Nodup)
    (hp : p ∈ fields)
    (hd : dget dd p = Option.some d)
    (hv : resolveValue props cand id p = v)
    (hvn : v ≠ Value.none)
    (ht : dget TYPE_MAP d.type = Option.some c) :
    (∀ w e2, c v = Except.ok w →
      assignFields dd props cand id pfx fields e = Except.ok e2 →
      dget e2.attributes (propKey pfx p) = Option.some w) ∧
    (∀ m, c v = Except.error m →
      ∃ m2, assignFields dd props cand id pfx fields e = Except.error m2) ∧
    dget TYPE_MAP "float" = Option.some castFloat ∧
    castFloat (Value.str "3.5") = Except.ok (Value.float (7 / 2)) := by
  have hcd : castForDef d v = c v := by
    simp [castForDef, hvn, ht]
  refine ⟨?_, ?_, rfl, ?_⟩
  · intro w e2 hw h
    exact assignFields_write dd props cand id pfx p d w fields e e2 hnd hp hd
      (by rw [hv, hcd]; exact hw) h
  · intro m hm
    exact assignFields_error dd props cand id pfx p d m fields e hp hd
      (by rw [hv, hcd]; exact hm)
  · have h35 : castFloat (Value.str "3.5")
        = Except.ok (Value.float (((3 : Nat) : Rat) + ((5 : Nat) : Rat) / (10 : Rat) ^ (1 : Nat))) := by
      rfl
    rw [h35]
    norm_num

/-- Claim C4 (witness): declared type `"integer"`, raw string value `"7"`,
assigned attribute value is the number 7. -/
theorem claim4_type_casting_witness :
    dget (Entry.mk Value.none [(propKey "mc" "n", Value.int 7)]).attributes (propKey "mc" "n")
      = Option.some (Value.int 7) := by
  have h := claim4_type_casting
    [("n", PropertyDefinition.mk "n" "" "" Option.none "integer")]
    [("k", [("n", Value.str "7")])] (Value.str "k") "someid" "mc" "n"
    (PropertyDefinition.mk "n" "" "" Option.none "integer") castInt (Value.str "7")
    ["n"] (Entry.mk Value.none [])
    (by decide) (by simp) (by rfl) (by rfl) (by decide) (by rfl)
  exact h.1 (Value.int 7) (Entry.mk Value.none [(propKey "mc" "n", Value.int 7)])
    (by rfl) (by rfl)

/-- Claim C9: the two candidate lookups are combined with Python's
truthiness `or`, so a falsy value found under the reconciled (stem or
immutable-id) key is discarded: the resolved value is whatever the full
entry-identifier key yields (possibly `None`), and that is what gets
assigned — a falsy value can never be assigned from the reconciled key. -/
theorem claim9_falsy_or_fallthrough (dd : List (String × PropertyDefinition)) (props : PropMap)
    (cand : Value) (id : String) (pfx : String) (p : String) (d : PropertyDefinition)
    (w : Value) (fields : List String) (e : Entry)
    (hnd : (fields.map (propKey pfx)).Nodup)
    (hp : p ∈ fields)
    (hd : dget dd p = Option.some d)
    (hfalsy : (getProp props cand p).truthy = false)
    (hw : castForDef d (getProp props (Value.str id) p) = Except.ok w) :
    resolveValue props cand id p = getProp props (Value.str id) p ∧
    (∀ e2, assignFields dd props cand id pfx fields e = Except.ok e2 →
      dget e2.attributes (propKey pfx p) = Option.some w) := by
  have hres : resolveValue props cand id p = getProp props (Value.str id) p := by
    simp [resolveValue, hfalsy]
  exact ⟨hres, fun e2 h =>
    assignFields_write dd props cand id pfx p d w fields e e2 hnd hp hd
      (by rw [hres]; exact hw) h⟩

/-- Claim C9 (witness): the stem key `"thing"` holds the falsy value 0 for
property `"n"`; the full identifier key holds 7; the assigned value is 7. -/
theorem claim9_falsy_or_fallthrough_witness :
    resolveValue [("thing", [("n", Value.int 0)]), ("structures/thing.cif", [("n", Value.int 7)])]
      (Value.str "thing") "structures/thing.cif" "n" = Value.int 7 ∧
    dget (Entry.mk (Value.str "structures/thing.cif")
        [(propKey "mc" "n", Value.int 7)]).attributes (propKey "mc" "n")
      = Option.some (Value.int 7) := by
  have h := claim9_falsy_or_fallthrough
    [("n", PropertyDefinition.mk "n" "" "" Option.none "integer")]
    [("thing", [("n", Value.int 0)]), ("structures/thing.cif", [("n", Value.int 7)])]
    (Value.str "thing") "structures/thing.cif" "mc" "n"
    (PropertyDefinition.mk "n" "" "" Option.none "integer") (Value.int 7)
    ["n"] (Entry.mk (Value.str "structures/thing.cif") [])
    (by decide) (by simp) (by rfl) (by rfl) (by rfl)
  exact ⟨h.1.trans (by rfl),
    h.2 (Entry.mk (Value.str "structures/thing.cif") [(propKey "mc" "n", Value.int 7)]) (by rfl)⟩

/-! Lemmas about the declared-definitions dictionary. -/

theorem mkDefDictAux_mem :
    ∀ (rest : List PropertyDefinition) (acc : List (String × PropertyDefinition))
      (P : List PropertyDefinition),
      (∀ k d, dget acc k = Option.some d → d ∈ P ∧ d.name = k) →
      (∀ p ∈ rest, p ∈ P) →
      ∀ k d, dget (mkDefDictAux acc rest) k = Option.some d → d ∈ P ∧ d.name = k := by
  intro rest
  induction rest with
  | nil =>
    intro acc P hacc _ k d h
    simp only [mkDefDictAux] at h
    exact hacc k d h
  | cons p rest2 ih =>
    intro acc P hacc hmem k d h
    simp only [mkDefDictAux] at h
    refine ih (dset acc p.name p) P ?_ (fun q hq => hmem q (List.mem_cons_of_mem _ hq)) k d h
    intro k2 d2 h2
    rcases dget_dset_cases acc p.name k2 p d2 h2 with ⟨hk, hd2⟩ | hold
    · refine ⟨hd2 ▸ hmem p (List.mem_cons_self _ _), ?_⟩
      rw [hd2, hk]
    · exact hacc k2 d2 hold

theorem mkDefDict_mem (pdefs : List PropertyDefinition) (k : String) (d : PropertyDefinition)
    (h : dget (mkDefDict pdefs) k = Option.some d) : d ∈ pdefs ∧ d.name = k :=
  mkDefDictAux_mem pdefs [] pdefs (by intro k2 d2 h2; simp [dget] at h2) (fun p hp => hp) k d h

/-- Claim C10: a property name found in the data but not declared is
skipped (warning only), so every attribute key added by property
assignment is `_<pfx>_<name>` for some declared property definition. -/
theorem claim10_only_declared_keys (pdefs : List PropertyDefinition) (pfx : String)
    (fields : List String) (props : PropMap) :
    ∀ (entries out : List (String × Entry)),
      assignProperties (mkDefDict pdefs) pfx fields props entries = Except.ok out →
      ∀ id e2, (id, e2) ∈ out →
        ∃ e, (id, e) ∈ entries ∧
          ∀ k, (dget e2.attributes k).isSome →
            (dget e.attributes k).isSome ∨ ∃ d ∈ pdefs, k = propKey pfx d.name := by
  intro entries
  induction entries with
  | nil =>
    intro out h id e2 hmem
    simp only [assignProperties] at h
    cases h
    exact absurd hmem (by simp)
  | cons pr rest ih =>
    intro out h id e2 hmem
    obtain ⟨i0, e0⟩ := pr
    cases ha : assignEntry (mkDefDict pdefs) pfx fields props i0 e0 with
    | error m => simp [assignProperties, ha] at h
    | ok e0x =>
      cases hr : assignProperties (mkDefDict pdefs) pfx fields props rest with
      | error m => simp [assignProperties, ha, hr] at h
      | ok rest2 =>
        simp only [assignProperties, ha, hr] at h
        cases h
        rcases List.mem_cons.mp hmem with heq | hmem2
        · injection heq with h1 h2
          subst h1
          subst h2
          refine ⟨e0, List.mem_cons_self _ _, ?_⟩
          intro k hk
          have h4 := assignFields_new_keys (mkDefDict pdefs) props
            (reconciledKey id e0.attributes) id pfx fields e0 e2
            (by simpa [assignEntry] using ha) k hk
          rcases h4 with hold | ⟨p, d, hd, hkp⟩
          · exact Or.inl hold
          · obtain ⟨hdp, hname⟩ := mkDefDict_mem pdefs p d hd
            refine Or.inr ⟨d, hdp, ?_⟩
            rw [hkp, hname]
        · obtain ⟨e, hmem3, hprop⟩ := ih rest2 hr id e2 hmem2
          exact ⟨e, List.mem_cons_of_mem _ hmem3, hprop⟩

/-- Claim C10 (witness): concrete run with one declared property `"n"`;
the only new attribute key of the produced record is `_mc_n`. -/
theorem claim10_only_declared_keys_witness :
    ∃ e, ("a", e) ∈ ([("a", Entry.mk Value.none [])] : List (String × Entry)) ∧
      ∀ k, (dget (Entry.mk Value.none [(propKey "mc" "n", Value.int 1)]).attributes k).isSome →
        (dget e.attributes k).isSome ∨
          ∃ d ∈ [PropertyDefinition.mk "n" "" "" Option.none "integer"],
            k = propKey "mc" d.name := by
  exact claim10_only_declared_keys [PropertyDefinition.mk "n" "" "" Option.none "integer"]
    "mc" ["n"] [("a", [("n", Value.int 1)])]
    [("a", Entry.mk Value.none [])]
    [("a", Entry.mk Value.none [(propKey "mc" "n", Value.int 1)])] (by rfl) "a"
    (Entry.mk Value.none [(propKey "mc" "n", Value.int 1)]) (by simp)

/-! Serializer lemmas. -/

theorem flatMap_if_isEmpty (f : Entry → JsonlLine) :
    ∀ (oe : List (String × List Entry)),
      oe.flatMap (fun te => if te.2.isEmpty then [] else te.2.map f)
      = oe.flatMap (fun te => te.2.map f) := by
  intro oe
  induction oe with
  | nil => rfl
  | cons te rest ih =>
    simp only [List.flatMap_cons, ih]
    cases hte : te.2.isEmpty with
    | true =>
      rw [List.isEmpty_iff.mp hte]
      simp
    | false => simp [hte]

theorem length_flatMap_records (f : Entry → JsonlLine) :
    ∀ (oe : List (String × List Entry)),
      (oe.flatMap (fun te => te.2.map f)).length = (oe.map (fun te => te.2.length)).sum := by
  intro oe
  induction oe with
  | nil => rfl
  | cons te rest ih => simp [List.flatMap_cons, ih]

/-- Claim C5: a successful serialization writes exactly one header line,
then one info line per entry type of the property-definitions map
(zero-record types included), then one record line per entry in insertion
order — `1 + (number of entry types with definitions) + sum of records`
lines in that fixed order. -/
theorem claim5_jsonl_line_structure (oe : List (String × List Entry))
    (pd : List (String × List PropertyDefinition)) (pfx : String) :
    ∃ L, write_optimade_jsonl false oe pd pfx = Except.ok L ∧
      L = JsonlLine.header "1.1.0" ::
        (pd.map (fun td => JsonlLine.info td.1 pfx td.2) ++
          oe.flatMap (fun te => te.2.map (fun r => JsonlLine.record (stripInternal r)))) ∧
      L.length = 1 + pd.length + (oe.map (fun te => te.2.length)).sum := by
  refine ⟨_, rfl, ?_, ?_⟩
  · rw [flatMap_if_isEmpty]
  · rw [flatMap_if_isEmpty]
    simp only [List.length_cons, List.length_append, List.length_map, length_flatMap_records]
    omega

/-! Entry-parsing lemmas. -/

theorem parsePathList_ok (parsers : List EntryPars) (archive : String) (f : Option String)
    (all : List String) (docOf : String → PyDoc) :
    ∀ (ps : List String), (∀ p ∈ ps, tryParsers parsers p = Except.ok (docOf p)) →
      parsePathList parsers archive f all ps
      = Except.ok (ps.flatMap (fun p => docEntries (docOf p)),
          ps.flatMap (fun p => docIds (idRoot f archive all p) (docOf p))) := by
  intro ps
  induction ps with
  | nil => intro _; rfl
  | cons p rest ih =>
    intro hall
    have hp := hall p (List.mem_cons_self _ _)
    have hrest := ih (fun q hq => hall q (List.mem_cons_of_mem _ hq))
    simp only [parsePathList, parseFile, hp, hrest]
    simp [List.flatMap_cons]

/-- Claim C6: the derived identifier root is the sub-archive name joined
with the file's archive-relative path when the sub-archive matched more
than one file, and collapses to the sub-archive name alone when it matched
exactly one; a parser returning a document sequence yields identifiers
`<root>/<index>` per position and a single document yields `<root>`. -/
theorem claim6_identifier_derivation (parsers : List EntryPars) (archive : String)
    (f : Option String) (ps : List String) (docOf : String → PyDoc)
    (hall : ∀ p ∈ ps, tryParsers parsers p = Except.ok (docOf p)) :
    parse_entries parsers archive [(f, ps)]
      = Except.ok (ps.flatMap (fun p => docEntries (docOf p)),
          ps.flatMap (fun p => docIds (idRoot f archive ps p) (docOf p))) ∧
    (∀ p, 1 < ps.length → idRoot f archive ps p = pyStrKey f ++ "/" ++ relativeTo p archive) ∧
    (∀ p, ps.length = 1 → idRoot f archive ps p = pyStrKey f) ∧
    (∀ root l, docIds root (PyDoc.many l)
      = (List.range l.length).map (fun i => root ++ "/" ++ toString i)) ∧
    (∀ root v, docIds root (PyDoc.single v) = [root]) := by
  refine ⟨?_, ?_, ?_, fun root l => rfl, fun root v => rfl⟩
  · simp only [parse_entries, parsePathList_ok parsers archive f ps docOf ps hall]
    simp
  · intro p hlen
    simp [idRoot, hlen]
  · intro p hlen
    simp [idRoot, hlen]

/-- Claim C6 (witness): sub-archive `"structs"` matching two files; the
first parses to a two-document sequence, the second to a single document. -/
theorem claim6_identifier_derivation_witness :
    parse_entries [fun p => if p = "arch/structures/f1.cif"
        then Except.ok (PyDoc.many [Value.int 1, Value.int 2])
        else Except.ok (PyDoc.single (Value.int 3))] "arch"
      [(Option.some "structs", ["arch/structures/f1.cif", "arch/structures/f2.cif"])]
    = Except.ok ([Value.int 1, Value.int 2, Value.int 3],
        ["structs/structures/f1.cif/0", "structs/structures/f1.cif/1",
         "structs/structures/f2.cif"]) := by
  have h := (claim6_identifier_derivation
    [fun p => if p = "arch/structures/f1.cif"
      then Except.ok (PyDoc.many [Value.int 1, Value.int 2])
      else Except.ok (PyDoc.single (Value.int 3))] "arch" (Option.some "structs")
    ["arch/structures/f1.cif", "arch/structures/f2.cif"]
    (fun p => if p = "arch/structures/f1.cif"
      then PyDoc.many [Value.int 1, Value.int 2]
      else PyDoc.single (Value.int 3))
    (by intro p hp; fin_cases hp <;> rfl)).1
  exact h.trans (by rfl)

/-! File-matcher lemmas. -/

theorem get_matches_inner_error (env : Env) (archive : String) (f : Option String)
    (m : String) (hstar : containsStar m = true) (hglob : env.glob m = []) :
    ∀ (ms : List String) (acc : List (Option String × List String)), m ∈ ms →
      ∃ msg, get_matches_inner env archive f acc ms = Except.error msg := by
  intro ms
  induction ms with
  | nil => intro acc h; cases h
  | cons h0 rest ih =>
    intro acc hm
    rcases List.mem_cons.mp hm with rfl | hm2
    · refine ⟨"Could not find any files matching wildcard " ++ m, ?_⟩
      simp [get_matches_inner, hstar, hglob, sortStrings]
    · cases hstar0 : containsStar h0 with
      | true =>
        cases hw : ((sortStrings (env.glob h0)).map (fun r => archive ++ "/" ++ r)).isEmpty with
        | true =>
          refine ⟨"Could not find any files matching wildcard " ++ h0, ?_⟩
          simp [get_matches_inner, hstar0, hw]
        | false =>
          obtain ⟨msg, hmsg⟩ :=
            ih (dAppend acc f ((sortStrings (env.glob h0)).map (fun r => archive ++ "/" ++ r))) hm2
          exact ⟨msg, by simp [get_matches_inner, hstar0, hw, hmsg]⟩
      | false =>
        obtain ⟨msg, hmsg⟩ := ih (dAppend acc f [archive ++ "/" ++ h0]) hm2
        exact ⟨msg, by simp [get_matches_inner, hstar0, hmsg]⟩

theorem get_matches_paths_error (env : Env) (archive : String) (m : String)
    (hstar : containsStar m = true) (hglob : env.glob m = []) :
    ∀ (paths : List ParsedFiles) (acc : List (Option String × List String)),
      (∃ pf ∈ paths, m ∈ pf.matchList.getD []) →
      ∃ msg, get_matches_paths env archive paths acc = Except.error msg := by
  intro paths
  induction paths with
  | nil =>
    intro acc h
    obtain ⟨pf, hpf, _⟩ := h
    cases hpf
  | cons p0 rest ih =>
    intro acc h
    obtain ⟨pf, hpf, hm⟩ := h
    rcases List.mem_cons.mp hpf with rfl | hpf2
    · obtain ⟨msg, hmsg⟩ :=
        get_matches_inner_error env archive pf.file m hstar hglob (pf.matchList.getD []) acc hm
      exact ⟨msg, by simp [get_matches_paths, hmsg]⟩
    · cases hi : get_matches_inner env archive p0.file acc (p0.matchList.getD []) with
      | error msg => exact ⟨msg, by simp [get_matches_paths, hi]⟩
      | ok acc2 =>
        obtain ⟨msg, hmsg⟩ := ih
          (if (p0.matchList.getD []).isEmpty then
            dAppend acc2 p0.file [archive ++ "/" ++ pyStrKey p0.file]
          else acc2) ⟨pf, hpf2, hm⟩
        refine ⟨msg, ?_⟩
        simp only [get_matches_paths, hi]
        exact hmsg

/-- Claim C8: a path-specification pattern containing a wildcard whose glob
expansion is empty makes the file matcher fail with the no-match error, and
the whole `construct_entries` run fails before any parsing begins —
regardless of which parsers are registered, a zero-match wildcard is never
silently skipped. -/
theorem claim8_wildcard_no_match (env : Env) (archive : String) (paths : List ParsedFiles)
    (pf : ParsedFiles) (m : String)
    (hpf : pf ∈ paths) (hm : m ∈ pf.matchList.getD [])
    (hstar : containsStar m = true) (hglob : env.glob m = []) :
    (∃ msg, get_matches env archive paths = Except.error msg) ∧
    (∀ (cfg : EntryConfig) (pfx : String), cfg.entry_paths = paths →
      ∃ msg, construct_entries env archive cfg pfx = Except.error msg) := by
  have h1 := get_matches_paths_error env archive m hstar hglob paths [] ⟨pf, hpf, hm⟩
  refine ⟨h1, ?_⟩
  intro cfg pfx hpaths
  obtain ⟨msg, hmsg⟩ := h1
  cases hep : env.entryPlugins cfg.entry_type with
  | none =>
    exact ⟨"Parsing type " ++ cfg.entry_type ++ " is not supported.",
      by simp [construct_entries, hep]⟩
  | some parsers =>
    cases hcp : env.converterPlugins cfg.entry_type with
    | none =>
      exact ⟨"Converting type " ++ cfg.entry_type ++ " is not supported.",
        by simp [construct_entries, hep, hcp]⟩
    | some convs =>
      refine ⟨msg, ?_⟩
      simp [construct_entries, hep, hcp, hpaths, get_matches, hmsg]

/-- Claim C8 (witness): the spec's own example — a pattern
`*.nonexistent` with zero filesystem matches fails the matcher. -/
theorem claim8_wildcard_no_match_witness :
    ∃ msg, get_matches
      (Env.mk (fun _ => []) (fun _ => true) (fun _ => Option.none) (fun _ => Option.none)
        (fun _ => []))
      "arch" [ParsedFiles.mk Option.none (Option.some ["*.nonexistent"])]
      = Except.error msg :=
  (claim8_wildcard_no_match
    (Env.mk (fun _ => []) (fun _ => true) (fun _ => Option.none) (fun _ => Option.none)
      (fun _ => []))
    "arch" [ParsedFiles.mk Option.none (Option.some ["*.nonexistent"])]
    (ParsedFiles.mk Option.none (Option.some ["*.nonexistent"])) "*.nonexistent"
    (by simp) (by simp) (by rfl) (by rfl)).1

end Optimake

-- sanity checks (to be removed): these compile-time examples exercise the
-- string helpers on the spec's concrete examples
example : Optimake.stem "structures/foo.cif" = "foo" := by rfl
example : Optimake.stem "foo" = "foo" := by rfl
example : Optimake.pathSuffix "arch/data.csv" = ".csv" := by rfl
example : Optimake.pathSuffix "arch/.hidden" = "" := by rfl
example : Optimake.pathSuffix "a.tar.gz" = ".gz" := by rfl
example : Optimake.containsStar "*.nonexistent" = true := by rfl
example : Optimake.relativeTo "arch/structures/f1.cif" "arch" = "structures/f1.cif" := by rfl
